import Mathlib

/-!
# Verification of the game-library backend

A shallow embedding of the Go backend (package `library`, package `server`,
and the backend entry point) together with proofs of the specified
properties.  Go strings are modelled as UTF-8 byte sequences (`List Nat`),
Go's `uint32` arithmetic as `Nat` arithmetic modulo `2^32`, `time.Time` as
an abstract integer timeline (`Int`, with `Before` as `<` and the zero
value as `0`), and Go maps (`map[string]int`) as association lists with
unique keys.  Filesystem access (`os.Stat`, `filepath.Walk`) and the
outcome of disk writes are abstracted as explicit parameters.
-/

namespace GameLib

/-- A Go string: its UTF-8 byte sequence. -/
abbrev GoStr := List Nat

/-- UTF-8 encoding of a code point (Go `utf8.AppendRune` for valid runes;
every rune produced in this development is valid). -/
def utf8Encode (c : Nat) : List Nat :=
  if c < 0x80 then [c]
  else if c < 0x800 then [0xC0 + c / 64, 0x80 + c % 64]
  else if c < 0x10000 then [0xE0 + c / 4096, 0x80 + (c / 64) % 64, 0x80 + c % 64]
  else [0xF0 + c / 262144, 0x80 + (c / 4096) % 64, 0x80 + (c / 64) % 64, 0x80 + c % 64]

/-- Whether `b` is a UTF-8 continuation byte (`0x80..0xBF`). -/
def isCont (b : Nat) : Bool := 0x80 ≤ b && b ≤ 0xBF

/-- Valid second-byte range for a three-byte sequence headed by `b0`,
following Go `utf8`'s accept ranges (`0xE0` needs `0xA0..0xBF`, `0xED`
needs `0x80..0x9F`, the rest `0x80..0xBF`). -/
def accept3 (b0 b1 : Nat) : Bool :=
  if b0 = 0xE0 then 0xA0 ≤ b1 && b1 ≤ 0xBF
  else if b0 = 0xED then 0x80 ≤ b1 && b1 ≤ 0x9F
  else isCont b1

/-- Valid second-byte range for a four-byte sequence headed by `b0`
(`0xF0` needs `0x90..0xBF`, `0xF4` needs `0x80..0x8F`, the rest
`0x80..0xBF`). -/
def accept4 (b0 b1 : Nat) : Bool :=
  if b0 = 0xF0 then 0x90 ≤ b1 && b1 ≤ 0xBF
  else if b0 = 0xF4 then 0x80 ≤ b1 && b1 ≤ 0x8F
  else isCont b1

/-- The sequence of runes produced by Go's `for _, c := range s` over a
string: UTF-8 decoding where an invalid sequence yields `0xFFFD` and
advances a single byte. -/
def utf8Runes : List Nat → List Nat
  | [] => []
  | b0 :: rest =>
    if b0 < 0x80 then b0 :: utf8Runes rest
    else if 0xC2 ≤ b0 && b0 ≤ 0xDF then
      match rest with
      | b1 :: rest1 =>
        if isCont b1 then ((b0 - 0xC0) * 64 + (b1 - 0x80)) :: utf8Runes rest1
        else 0xFFFD :: utf8Runes (b1 :: rest1)
      | [] => [0xFFFD]
    else if 0xE0 ≤ b0 && b0 ≤ 0xEF then
      match rest with
      | b1 :: b2 :: rest2 =>
        if accept3 b0 b1 && isCont b2 then
          ((b0 - 0xE0) * 4096 + (b1 - 0x80) * 64 + (b2 - 0x80)) :: utf8Runes rest2
        else 0xFFFD :: utf8Runes (b1 :: b2 :: rest2)
      | [b1] => 0xFFFD :: utf8Runes [b1]
      | [] => [0xFFFD]
    else if 0xF0 ≤ b0 && b0 ≤ 0xF4 then
      match rest with
      | b1 :: b2 :: b3 :: rest3 =>
        if accept4 b0 b1 && isCont b2 && isCont b3 then
          ((b0 - 0xF0) * 262144 + (b1 - 0x80) * 4096 + (b2 - 0x80) * 64 + (b3 - 0x80))
            :: utf8Runes rest3
        else 0xFFFD :: utf8Runes (b1 :: b2 :: b3 :: rest3)
      | [b1, b2] => 0xFFFD :: utf8Runes [b1, b2]
      | [b1] => 0xFFFD :: utf8Runes [b1]
      | [] => [0xFFFD]
    else 0xFFFD :: utf8Runes rest

/-- `unicode.ToUpper` on a rune, modelled faithfully on ASCII and the
Latin-1 block (including `µ → Μ` and `ÿ → Ÿ`); identity elsewhere (no
rune outside this subset occurs in the development). -/
def toUpperRune (c : Nat) : Nat :=
  if 97 ≤ c ∧ c ≤ 122 then c - 32
  else if 0xE0 ≤ c ∧ c ≤ 0xFE ∧ c ≠ 0xF7 then c - 32
  else if c = 0xB5 then 0x39C
  else if c = 0xFF then 0x178
  else c

/-- `unicode.ToLower` on a rune, modelled faithfully on ASCII and the
Latin-1 block; identity elsewhere. -/
def toLowerRune (c : Nat) : Nat :=
  if 65 ≤ c ∧ c ≤ 90 then c + 32
  else if 0xC0 ≤ c ∧ c ≤ 0xDE ∧ c ≠ 0xD7 then c + 32
  else c

/-- `strings.ToUpper`: decode runes (invalid bytes become `0xFFFD`, as in
`strings.Map`), uppercase each, re-encode. -/
def goToUpper (s : GoStr) : GoStr :=
  ((utf8Runes s).map (fun c => utf8Encode (toUpperRune c))).flatten

/-- `strings.ToLower`, same structure as `goToUpper`. -/
def goToLower (s : GoStr) : GoStr :=
  ((utf8Runes s).map (fun c => utf8Encode (toLowerRune c))).flatten

/-- Byte content of a Lean string literal, for writing `GoStr` constants. -/
def str (s : String) : GoStr :=
  (s.data.map (fun c => utf8Encode c.toNat)).flatten

/-- `strings.HasSuffix`. -/
def hasSuffix (s suf : GoStr) : Bool := suf.isSuffixOf s

/-- `strings.TrimSuffix`. -/
def trimSuffix (s suf : GoStr) : GoStr :=
  if hasSuffix s suf then s.take (s.length - suf.length) else s

/-- Strip trailing `/` separators (the first loop of `filepath.Base` on
Unix). -/
def dropTrailingSlashes (p : GoStr) : GoStr :=
  (p.reverse.dropWhile (fun b => b == 47)).reverse

/-- The portion of `p` after its last `/`. -/
def afterLastSlash (p : GoStr) : GoStr :=
  (p.reverse.takeWhile (fun b => b != 47)).reverse

/-- `filepath.Base` for Unix paths: `"."` for the empty path, else strip
trailing separators, take the last element, and return `"/"` if only
separators remained. -/
def filepathBase (p : GoStr) : GoStr :=
  if p = [] then [46]
  else
    let r := afterLastSlash (dropTrailingSlashes p)
    if r = [] then [47] else r

/-- Scan of `filepath.Ext`, over the reversed path: walking backwards,
stop with `""` at a separator, and at a `.` return it followed by the
already-passed bytes (`acc`, kept in forward order). -/
def extScan (acc : List Nat) : List Nat → GoStr
  | [] => []
  | c :: rest => if c = 47 then [] else if c = 46 then 46 :: acc else extScan (c :: acc) rest

/-- `filepath.Ext`: the suffix of the final path element starting at its
last dot, or `""` if the final element has no dot. -/
def filepathExt (p : GoStr) : GoStr := extScan [] p.reverse

/-- `generateID` from the library package: a 32-bit rolling hash of the
path's runes (`hash = hash*31 + c` in a `uint32`), the basename with the
path's extension trimmed off, truncated to 8 bytes if longer, uppercased,
with `'A' + hash % 26` appended. -/
def generateID (path : GoStr) : GoStr :=
  let hash := (utf8Runes path).foldl (fun h c => (h * 31 + c) % 4294967296) 0
  let base0 := trimSuffix (filepathBase path) (filepathExt path)
  let base1 := if base0.length > 8 then base0.take 8 else base0
  goToUpper base1 ++ utf8Encode (65 + hash % 26)

/-- The identity-derivation algorithm exactly as the spec sentence words
it: rolling hash over the path's characters in a 32-bit accumulator; the
filename without its extension, uppercased, truncated to at most 8
characters (runes); then one letter `'A' + hash % 26`. -/
def generateIDAsClaimed (p : GoStr) : GoStr :=
  let hash := (utf8Runes p).foldl (fun h c => (h * 31 + c) % 4294967296) 0
  let stem := trimSuffix (filepathBase p) (filepathExt p)
  let chars := (utf8Runes stem).map toUpperRune
  ((chars.take 8).map utf8Encode).flatten ++ [65 + hash % 26]

/-- The amended identity-derivation spec: rolling hash `hash*31 + c` over
the path's characters, wrapped in a 32-bit accumulator; the filename
without its extension truncated to at most 8 BYTES of its UTF-8 encoding,
THEN uppercased; then one letter `'A' + hash % 26`. -/
def generateIDAmendedSpec (p : GoStr) : GoStr :=
  let hash := ((utf8Runes p).foldl (fun h c => h * 31 + c) 0) % 4294967296
  let stem := trimSuffix (filepathBase p) (filepathExt p)
  goToUpper (stem.take 8) ++ [65 + hash % 26]

/-- One scan of `strings.Replace(s, pat, rep, -1)` for the nonempty
pattern `p :: ps`: replace every non-overlapping occurrence, left to
right.  `fuel` only bounds the recursion (each step consumes at least one
byte, so `fuel = s.length` never runs out). -/
def replaceLoop (p : Nat) (ps : List Nat) (rep : GoStr) : Nat → GoStr → GoStr
  | _, [] => []
  | 0, s => s
  | fuel + 1, c :: rest =>
    if (p :: ps).isPrefixOf (c :: rest) then
      rep ++ replaceLoop p ps rep fuel ((c :: rest).drop (ps.length + 1))
    else c :: replaceLoop p ps rep fuel rest

/-- `strings.ReplaceAll` (every pattern used by the code is nonempty, so
the empty-pattern rune-interleaving branch of Go's `Replace` is not
modelled). -/
def replaceAll (s pat rep : GoStr) : GoStr :=
  match pat with
  | [] => s
  | p :: ps => replaceLoop p ps rep s.length s

/-- ASCII whitespace byte (`strings.TrimSpace`, restricted to the
single-byte whitespace runes; no multi-byte whitespace occurs in the
development). -/
def isSpaceByte (b : Nat) : Bool :=
  b == 9 || b == 10 || b == 11 || b == 12 || b == 13 || b == 32

/-- `strings.TrimSpace` on ASCII whitespace. -/
def trimSpace (s : GoStr) : GoStr :=
  ((s.dropWhile isSpaceByte).reverse.dropWhile isSpaceByte).reverse

/-- `cleanGameTitle`: strip the extension, replace `_` and `-` with
spaces, delete the literal substrings `(USA)`, `(Europe)`, `(Japan)`,
and trim surrounding whitespace. -/
def cleanGameTitle (filename : GoStr) : GoStr :=
  let t0 := trimSuffix filename (filepathExt filename)
  let t1 := replaceAll t0 (str "_") (str " ")
  let t2 := replaceAll t1 (str "-") (str " ")
  let t3 := replaceAll t2 (str "(USA)") []
  let t4 := replaceAll t3 (str "(Europe)") []
  let t5 := replaceAll t4 (str "(Japan)") []
  trimSpace t5

/-- The static `platformExtensions` table.  Go iterates this map in
unspecified order; the extension sets are pairwise disjoint, so
`detectPlatform` does not depend on the order — modelled in the source's
textual order. -/
def platformExtensions : List (GoStr × List GoStr) :=
  [(str "NES", [str ".nes", str ".unf", str ".unif"]),
   (str "SNES", [str ".sfc", str ".smc"]),
   (str "N64", [str ".n64", str ".z64", str ".v64"]),
   (str "GBA", [str ".gba"]),
   (str "GB", [str ".gb", str ".gbc"]),
   (str "ATARI", [str ".a26", str ".bin"])]

/-- `detectPlatform`: the platform whose extension list contains `ext`,
or `""`. -/
def detectPlatform (ext : GoStr) : GoStr :=
  match platformExtensions.find? (fun pe => pe.2.contains ext) with
  | some pe => pe.1
  | none => []

/-- `GameInfo` (one record of the library).  `time.Time` is modelled as
`Int` with `Before` as `<` and the zero value as `0`; field defaults are
the Go zero values. -/
structure GameInfo where
  ID : GoStr := []
  Title : GoStr := []
  Description : GoStr := []
  Platform : GoStr := []
  Path : GoStr := []
  CoverPath : GoStr := []
  LastPlayed : Int := 0
  PlayCount : Int := 0
  Favorite : Bool := false
  Category : GoStr := []
deriving DecidableEq, Repr

/-- A `map[string]int`, modelled as an association list (reachable states
keep keys unique). -/
abbrev CountMap := List (GoStr × Int)

/-- Go map read `m[k]` as an `Option` (present or absent). -/
def mapFind (m : CountMap) (k : GoStr) : Option Int :=
  match m.find? (fun e => e.1 == k) with
  | some e => some e.2
  | none => none

/-- Go map read `m[k]` with the zero value for an absent key. -/
def mapGet (m : CountMap) (k : GoStr) : Int := (mapFind m k).getD 0

/-- Go map write `m[k] = v`. -/
def mapSet : CountMap → GoStr → Int → CountMap
  | [], k, v => [(k, v)]
  | e :: rest, k, v => if e.1 == k then (k, v) :: rest else e :: mapSet rest k v

/-- Go `m[k]++`. -/
def mapInc (m : CountMap) (k : GoStr) : CountMap := mapSet m k (mapGet m k + 1)

/-- The `Library` store state (the exported, persisted fields; the mutex
and config path carry no data). -/
structure Library where
  Games : List GameInfo := []
  ScanPaths : List GoStr := []
  Categories : CountMap := []
  Platforms : CountMap := []
  LastScan : Int := 0
deriving DecidableEq, Repr

/-- Outcome of `os.Stat` on a path. -/
inductive StatResult
  | missing
  | file
  | dir
deriving DecidableEq

/-- One `filepath.Walk` callback invocation: the visited path, whether it
is a directory, and whether the callback received a non-nil error. -/
structure WalkEntry where
  path : GoStr
  isDir : Bool
  err : Bool
deriving DecidableEq, Repr

/-- Abstract view of the filesystem: what `os.Stat` reports per path and
which entries `filepath.Walk` visits under a root. -/
structure FS where
  stat : GoStr → StatResult
  walk : GoStr → List WalkEntry

/-- Go error values returned by the library operations:
`os.ErrNotExist` (the bare sentinel), the `*fs.PathError` produced by
`os.Stat` on a missing path (which wraps the same sentinel), and a disk
write failure. -/
inductive GoError
  | errNotExist
  | statPathError (path : GoStr)
  | writeError (msg : GoStr)
deriving DecidableEq, Repr

/-- `AddScanPath`: `os.Stat` error (missing path) is returned as-is; an
existing non-directory returns `os.ErrNotExist`; otherwise append unless
an exact-string-equal entry is present. -/
def AddScanPath (fs : FS) (lib : Library) (path : GoStr) : Library × Option GoError :=
  match fs.stat path with
  | .missing => (lib, some (.statPathError path))
  | .file => (lib, some .errNotExist)
  | .dir =>
    if lib.ScanPaths.contains path then (lib, none)
    else ({ lib with ScanPaths := lib.ScanPaths ++ [path] }, none)

/-- The `GameInfo` literal built by `Scan` for a matched file (the other
fields take their Go zero values). -/
def mkGame (path platform : GoStr) : GameInfo :=
  { ID := generateID path
    Title := cleanGameTitle (filepathBase path)
    Platform := platform
    Path := path
    Category := str "Uncategorized" }

/-- One `filepath.Walk` callback invocation inside `Scan`: skip errors and
directories, detect the platform from the lower-cased extension, and on a
match append the new record and bump both count maps. -/
def scanStep (st : Library) (e : WalkEntry) : Library :=
  if e.err || e.isDir then st
  else
    let platform := detectPlatform (goToLower (filepathExt e.path))
    if platform ≠ [] then
      let game := mkGame e.path platform
      { st with
          Games := st.Games ++ [game]
          Platforms := mapInc st.Platforms platform
          Categories := mapInc st.Categories game.Category }
    else st

/-- The in-memory part of `Scan`, plus the value its final
`return lib.Save()` WOULD produce: reset the record list and both count
maps, walk every configured root, stamp `LastScan` with the current
time, and pair the new state with the abstracted disk-write outcome
`saveResult`.  In the program that return is never reached: `Scan` still
holds `lib.mu` when `Save` re-acquires it, and `sync.RWMutex` is not
reentrant, so the call blocks forever (see `ScanExec`).  The first
component — the state installed before the blocking point — is the
faithful part. -/
def Scan (fs : FS) (now : Int) (saveResult : Option GoError) (lib : Library) :
    Library × Option GoError :=
  let st0 := { lib with Games := [], Categories := [], Platforms := [] }
  let st1 := lib.ScanPaths.foldl (fun st root => (fs.walk root).foldl scanStep st) st0
  ({ st1 with LastScan := now }, saveResult)

/-- The observable outcome of a blocking method call: it returns a value,
or it blocks forever on a lock acquisition (recording the in-memory state
at the moment of blocking). -/
inductive Exec (α : Type) where
  | returns (a : α)
  | blocked (state : Library)
deriving Repr

/-- A call to `lib.Save()` from a goroutine that may already hold
`lib.mu`: `Save` begins with `lib.mu.Lock()`, and Go's `sync.RWMutex` is
not reentrant, so with the mutex held the call blocks forever before
reaching the marshal and disk write; otherwise it returns the
write outcome. -/
def saveWithMu (muHeldByCaller : Bool) (st : Library) (writeResult : Option GoError) :
    Exec (Option GoError) :=
  if muHeldByCaller then .blocked st else .returns writeResult

/-- `Scan` including the mutex it holds: `lib.mu.Lock()` succeeds, the
in-memory replacement `(Scan ...).1` is installed, and then
`return lib.Save()` runs with `lib.mu` still held. -/
def ScanExec (fs : FS) (now : Int) (writeResult : Option GoError) (lib : Library) :
    Exec (Library × Option GoError) :=
  let st := (Scan fs now writeResult lib).1
  match saveWithMu true st writeResult with
  | .blocked s => .blocked s
  | .returns err => .returns (st, err)

/-- `GetGames`: both filters empty returns the sequence itself; otherwise
keep records matching every non-empty filter. -/
def GetGames (lib : Library) (platform category : GoStr) : List GameInfo :=
  if platform = [] ∧ category = [] then lib.Games
  else lib.Games.filter (fun g =>
    (platform.isEmpty || g.Platform == platform) &&
    (category.isEmpty || g.Category == category))

/-- `GetGameByID`: linear scan for the first record with the given ID. -/
def GetGameByID (lib : Library) (id : GoStr) : Option GameInfo :=
  lib.Games.find? (fun g => g.ID == id)

/-- `ToggleFavorite`'s loop over the records: flip the first record whose
ID matches, or report that none did. -/
def toggleGames (id : GoStr) : List GameInfo → Option (List GameInfo)
  | [] => none
  | g :: rest =>
    if g.ID == id then some ({ g with Favorite := !g.Favorite } :: rest)
    else
      match toggleGames id rest with
      | some rest2 => some (g :: rest2)
      | none => none

/-- `ToggleFavorite`: flip the matching record and persist (write outcome
abstracted as `saveResult`); with no match, return success untouched. -/
def ToggleFavorite (lib : Library) (id : GoStr) (saveResult : Option GoError) :
    Library × Option GoError :=
  match toggleGames id lib.Games with
  | some games2 => ({ lib with Games := games2 }, saveResult)
  | none => (lib, none)

/-- `GetFavorites`: records with the flag set, in sequence order. -/
def GetFavorites (lib : Library) : List GameInfo :=
  lib.Games.filter (fun g => g.Favorite)

/-- The sweep of `bubblePass` with the element currently "in hand":
`bubblePassAux a t` walks `a :: t`, swapping adjacent elements when the
earlier one was last played before the later one. -/
def bubblePassAux (a : GameInfo) : List GameInfo → List GameInfo
  | [] => [a]
  | b :: t =>
    if a.LastPlayed < b.LastPlayed then b :: bubblePassAux a t else a :: bubblePassAux b t

/-- One adjacent compare-and-swap sweep of `GetRecentlyPlayed`'s bubble
sort (its inner loop). -/
def bubblePass : List GameInfo → List GameInfo
  | [] => []
  | a :: t => bubblePassAux a t

/-- The inner loop for outer index `i` touches only the first
`m = n - i` positions: one sweep over the prefix of length `m`. -/
def passFirst (m : Nat) (l : List GameInfo) : List GameInfo :=
  bubblePass (l.take m) ++ l.drop m

/-- The outer loop of the bubble sort: sweeps over prefixes of length
`m, m-1, ..., 2`. -/
def bubbleAux : Nat → List GameInfo → List GameInfo
  | 0, l => l
  | 1, l => l
  | m + 2, l => bubbleAux (m + 1) (passFirst (m + 2) l)

/-- The full bubble sort of `GetRecentlyPlayed` (outer loop runs
`n - 1` times, the `i`-th sweeping the first `n - i` positions). -/
def bubbleSort (l : List GameInfo) : List GameInfo := bubbleAux l.length l

/-- `GetRecentlyPlayed`: sort a copy by `LastPlayed` descending and
truncate to `limit` when `0 < limit < n`. -/
def GetRecentlyPlayed (lib : Library) (limit : Int) : List GameInfo :=
  let games := bubbleSort lib.Games
  if 0 < limit ∧ limit < (games.length : Int) then games.take limit.toNat else games

/-- `AddScanPath` applied `n` times with the same path. -/
def addNTimes (fs : FS) (path : GoStr) : Nat → Library → Library
  | 0, lib => lib
  | n + 1, lib => addNTimes fs path n (AddScanPath fs lib path).1

/-- The property `Scan` guarantees of every record it produces: it stems
from a visited, error-free, non-directory file; its platform is the one
detected from the lower-cased extension and registers that extension in
the static table; and ID, title and category are derived as specified. -/
def ScannedGameOk (fs : FS) (roots : List GoStr) (g : GameInfo) : Prop :=
  (∃ root ∈ roots, ∃ e ∈ fs.walk root, e.err = false ∧ e.isDir = false ∧ g.Path = e.path) ∧
  g.Platform = detectPlatform (goToLower (filepathExt g.Path)) ∧
  (∃ exts, (g.Platform, exts) ∈ platformExtensions ∧ goToLower (filepathExt g.Path) ∈ exts) ∧
  g.ID = generateID g.Path ∧
  g.Title = cleanGameTitle (filepathBase g.Path) ∧
  g.Category = str "Uncategorized"

/-- C10's consistency invariant for one count map: a key has an entry
exactly when some record maps to it, and the entry is the number of such
records. -/
def CountsConsistent (games : List GameInfo) (m : CountMap) (f : GameInfo → GoStr) : Prop :=
  ∀ k, mapFind m k =
    if 0 < games.countP (fun g => f g == k) then
      some (games.countP (fun g => f g == k) : Int)
    else none

/-- Sorted by `LastPlayed` descending: later timestamps first. -/
def SortedDesc (l : List GameInfo) : Prop :=
  l.Sorted (fun a b => b.LastPlayed ≤ a.LastPlayed)

/-- JSON values as marshalled/unmarshalled by `encoding/json` for this
program.  `time.Time`'s RFC3339 string form is abstracted as an opaque
`time` leaf over the integer timeline: its encoding is injective and
never inspected, which is all the round-trip depends on. -/
inductive Json where
  | str (s : GoStr)
  | num (n : Int)
  | jbool (b : Bool)
  | time (t : Int)
  | arr (xs : List Json)
  | obj (fields : List (GoStr × Json))

/-- Byte-wise lexicographic `≤` on strings (the order in which Go
marshals map keys). -/
def lexLe : List Nat → List Nat → Bool
  | [], _ => true
  | _ :: _, [] => false
  | a :: as, b :: bs => if a < b then true else if b < a then false else lexLe as bs

/-- Insertion into a key-sorted entry list. -/
def insertSorted (x : GoStr × Int) : List (GoStr × Int) → List (GoStr × Int)
  | [] => [x]
  | y :: rest => if lexLe x.1 y.1 then x :: y :: rest else y :: insertSorted x rest

/-- The count-map entries in marshalling order (sorted by key). -/
def sortByKey (m : CountMap) : CountMap := m.foldr insertSorted []

/-- `json.Marshal` of a `GameInfo`: its fields in declaration order under
their struct-tag names. -/
def encodeGame (g : GameInfo) : Json :=
  .obj [(str "id", .str g.ID), (str "title", .str g.Title),
        (str "description", .str g.Description), (str "platform", .str g.Platform),
        (str "path", .str g.Path), (str "cover_path", .str g.CoverPath),
        (str "last_played", .time g.LastPlayed), (str "play_count", .num g.PlayCount),
        (str "favorite", .jbool g.Favorite), (str "category", .str g.Category)]

/-- `json.Marshal` of a `map[string]int`: one object with the entries
sorted by key. -/
def encodeCountMap (m : CountMap) : Json :=
  .obj ((sortByKey m).map (fun e => (e.1, Json.num e.2)))

/-- The value `Save` marshals: the exported `Library` fields in
declaration order (the mutex and config path are unexported and skipped;
`MarshalIndent`'s whitespace sits below the JSON level). -/
def encodeLibrary (lib : Library) : Json :=
  .obj [(str "games", .arr (lib.Games.map encodeGame)),
        (str "scan_paths", .arr (lib.ScanPaths.map Json.str)),
        (str "categories", encodeCountMap lib.Categories),
        (str "platforms", encodeCountMap lib.Platforms),
        (str "last_scan", .time lib.LastScan)]

/-- Object-field lookup during unmarshalling. -/
def objFind (fields : List (GoStr × Json)) (k : GoStr) : Option Json :=
  match fields.find? (fun e => e.1 == k) with
  | some e => some e.2
  | none => none

/-- Unmarshal a JSON value as a string. -/
def asStr : Json → Option GoStr
  | .str s => some s
  | _ => none

/-- Unmarshal a JSON value as an integer. -/
def asNum : Json → Option Int
  | .num n => some n
  | _ => none

/-- Unmarshal a JSON value as a boolean. -/
def asBool : Json → Option Bool
  | .jbool b => some b
  | _ => none

/-- Unmarshal a JSON value as a timestamp. -/
def asTime : Json → Option Int
  | .time t => some t
  | _ => none

/-- Unmarshal a JSON value as an array. -/
def asArr : Json → Option (List Json)
  | .arr xs => some xs
  | _ => none

/-- Unmarshal a JSON value as an object. -/
def asObj : Json → Option (List (GoStr × Json))
  | .obj fields => some fields
  | _ => none

/-- Decode one struct field: an absent key keeps the existing value, a
present one must have the expected shape. -/
def decodeField (fields : List (GoStr × Json)) (k : String) (f : Json → Option α)
    (dflt : α) : Option α :=
  match objFind fields (str k) with
  | none => some dflt
  | some v => f v

/-- `json.Unmarshal` of one `GameInfo` (into a fresh zero-valued record,
as happens inside a decoded slice). -/
def decodeGame (j : Json) : Option GameInfo := do
  let fields ← asObj j
  let id ← decodeField fields "id" asStr []
  let title ← decodeField fields "title" asStr []
  let desc ← decodeField fields "description" asStr []
  let plat ← decodeField fields "platform" asStr []
  let path ← decodeField fields "path" asStr []
  let cover ← decodeField fields "cover_path" asStr []
  let lp ← decodeField fields "last_played" asTime 0
  let pc ← decodeField fields "play_count" asNum 0
  let fav ← decodeField fields "favorite" asBool false
  let cat ← decodeField fields "category" asStr []
  pure { ID := id, Title := title, Description := desc, Platform := plat, Path := path,
         CoverPath := cover, LastPlayed := lp, PlayCount := pc, Favorite := fav,
         Category := cat }

/-- `json.Unmarshal` of a JSON object into an existing Go map: existing
entries are kept, decoded entries overwrite their keys. -/
def decodeCountMapInto (m : CountMap) (j : Json) : Option CountMap := do
  let fields ← asObj j
  let entries ← fields.mapM (fun e => (asNum e.2).map (fun v => (e.1, v)))
  pure (entries.foldl (fun acc e => mapSet acc e.1 e.2) m)

/-- `json.Unmarshal(data, lib)`: slices are replaced, maps are merged
into, and a missing field keeps the current value. -/
def decodeLibraryInto (lib : Library) (j : Json) : Option Library := do
  let fields ← asObj j
  let games ←
    match objFind fields (str "games") with
    | none => some lib.Games
    | some v => do
        let xs ← asArr v
        xs.mapM decodeGame
  let paths ←
    match objFind fields (str "scan_paths") with
    | none => some lib.ScanPaths
    | some v => do
        let xs ← asArr v
        xs.mapM asStr
  let cats ←
    match objFind fields (str "categories") with
    | none => some lib.Categories
    | some v => decodeCountMapInto lib.Categories v
  let plats ←
    match objFind fields (str "platforms") with
    | none => some lib.Platforms
    | some v => decodeCountMapInto lib.Platforms v
  let ls ← decodeField fields "last_scan" asTime lib.LastScan
  pure { Games := games, ScanPaths := paths, Categories := cats, Platforms := plats,
         LastScan := ls }

/-- `Save`'s marshalled snapshot (directory creation and the disk write
are abstracted away; C3 concerns a save that succeeded). -/
def saveContent (lib : Library) : Json := encodeLibrary lib

/-- `Load`: a missing file is not an error and leaves the state as-is; a
present file is unmarshalled into the current store. -/
def Load (lib : Library) (file : Option Json) : Option Library :=
  match file with
  | none => some lib
  | some j => decodeLibraryInto lib j

/-- A decoded request line (`server.Request`; the raw payload is the
parsed JSON value, if any). -/
structure Request where
  Typ : GoStr := []
  ID : GoStr := []
  Payload : Option Json := none

/-- What a handler places in a response's `data` field
(Go `interface{}`). -/
inductive RespData
  | nothing
  | games (gs : List GameInfo)
  | game (g : GameInfo)
  | text (s : GoStr)
  | kv (entries : List (GoStr × GoStr))
deriving DecidableEq, Repr

/-- `server.Response` (omitted optional fields keep their zero value). -/
structure Response where
  Typ : GoStr := []
  ID : GoStr := []
  Success : Bool := false
  Data : RespData := .nothing
  Error : GoStr := []
deriving DecidableEq, Repr

/-- `json.Unmarshal(req.Payload, &id)` into a string: a JSON string sets
it, anything else (or no payload) leaves the zero value — the code
discards the unmarshal error. -/
def payloadString : Option Json → GoStr
  | some (.str s) => s
  | _ => []

/-- `json.Unmarshal(req.Payload, &payload)` into `GameListPayload`:
platform and category filters (the decoded limit is never used). -/
def payloadGameList : Option Json → GoStr × GoStr
  | some (.obj fields) =>
    (match objFind fields (str "platform") with
     | some (.str s) => s
     | _ => [],
     match objFind fields (str "category") with
     | some (.str s) => s
     | _ => [])
  | _ => ([], [])

/-- `err.Error()` for the modelled error values (the `PathError` text is
OS-specific; the exact words are never relied on). -/
def errText : GoError → GoStr
  | .errNotExist => str "file does not exist"
  | .statPathError p => str "stat " ++ p ++ str ": no such file or directory"
  | .writeError msg => msg

/-- Decimal rendering for `fmt.Sprintf("Found %d games", n)`. -/
def natToDec (n : Nat) : GoStr := str (toString n)

/-- `handleRequest` from the backend entry point: dispatch on the
message-type token.  `scan` and `toggle_favorite` mutate the store, so
the possibly-updated store is returned alongside the response; the
abstracted filesystem, clock and write outcome feed those branches. -/
def handleRequest (fs : FS) (now : Int) (saveResult : Option GoError)
    (lib : Library) (req : Request) : Response × Library :=
  if req.Typ == str "list_games" then
    let pc := payloadGameList req.Payload
    ({ Typ := str "success", ID := req.ID, Success := true,
       Data := .games (GetGames lib pc.1 pc.2) }, lib)
  else if req.Typ == str "get_game" then
    match GetGameByID lib (payloadString req.Payload) with
    | none => ({ Typ := str "error", ID := req.ID, Success := false,
                 Error := str "Game not found" }, lib)
    | some g => ({ Typ := str "success", ID := req.ID, Success := true,
                   Data := .game g }, lib)
  else if req.Typ == str "get_favorites" then
    ({ Typ := str "success", ID := req.ID, Success := true,
       Data := .games (GetFavorites lib) }, lib)
  else if req.Typ == str "toggle_favorite" then
    let r := ToggleFavorite lib (payloadString req.Payload) saveResult
    match r.2 with
    | some e => ({ Typ := str "error", ID := req.ID, Success := false,
                   Error := errText e }, r.1)
    | none => ({ Typ := str "success", ID := req.ID, Success := true }, r.1)
  else if req.Typ == str "scan" then
    let r := Scan fs now saveResult lib
    match r.2 with
    | some e => ({ Typ := str "error", ID := req.ID, Success := false,
                   Error := errText e }, r.1)
    | none => ({ Typ := str "success", ID := req.ID, Success := true,
                 Data := .text (str "Found " ++ natToDec r.1.Games.length ++ str " games") },
               r.1)
  else if req.Typ == str "status" then
    ({ Typ := str "status", ID := req.ID, Success := true,
       Data := .kv [(str "status", str "ready"), (str "version", str "1.0.0")] }, lib)
  else
    ({ Typ := str "error", ID := req.ID, Success := false,
       Error := str "Unknown message type" }, lib)

/-- `sendError`: the response written for an undecodable line. -/
def sendErrorResp (reqID msg : GoStr) : Response :=
  { Typ := str "error", ID := reqID, Success := false, Error := msg }

/-- The fallback handler used when none is installed: a ready status. -/
def defaultHandler (req : Request) : Response :=
  { Typ := str "status", ID := req.ID, Success := true,
    Data := .kv [(str "status", str "ready")] }

/-- What `handleClient` sees of one received line: blank after trimming,
a JSON decode failure (with the decoder's message), or a decoded
request. -/
inductive ClientLine
  | blank
  | malformed (errMsg : GoStr)
  | parsed (req : Request)

/-- The per-connection read loop of `handleClient`, viewed as a function
from the received lines to the emitted responses (the loop runs while
the server's `running` flag is set and stops at a read error; neither
changes which response a given line produces). -/
def processLines (handler : Option (Request → Response)) :
    List ClientLine → List Response
  | [] => []
  | .blank :: rest => processLines handler rest
  | .malformed m :: rest =>
    sendErrorResp [] (str "Invalid JSON: " ++ m) :: processLines handler rest
  | .parsed req :: rest =>
    (match handler with
     | some h => h req
     | none => defaultHandler req) :: processLines handler rest

/-- Folding the rolling-hash step with the 32-bit wrap applied at every
step agrees with wrapping the unbounded fold once at the end. -/
theorem hashFold_mod (l : List Nat) (h : Nat) :
    l.foldl (fun h c => (h * 31 + c) % 4294967296) (h % 4294967296) =
      (l.foldl (fun h c => h * 31 + c) h) % 4294967296 := by
  induction l generalizing h with
  | nil => simp
  | cons c t ih =>
    simp only [List.foldl_cons]
    rw [← ih (h * 31 + c)]
    congr 1
    exact ((Nat.mod_modEq h 4294967296).mul_right 31).add_right c

/-- C1 (counterexample): the claim's algorithm — uppercase the extension-
stripped filename, then truncate to at most 8 characters — disagrees with
`generateID` on the path `"éaaaaaaaa.nes"`, whose stem is 9 runes but 10
bytes: the code truncates to 8 bytes before uppercasing. -/
theorem generateID_claim_counterexample :
    generateID (str "éaaaaaaaa.nes") ≠ generateIDAsClaimed (str "éaaaaaaaa.nes") := by
  decide

/-- C1 (amended): `generateID` computes exactly the 32-bit rolling hash
`hash*31 + charCode` over the path's characters, takes the filename
without its extension, truncates it to at most 8 bytes, uppercases it,
and appends the single letter `'A' + hash % 26`; being a function of the
path alone, identical paths always yield identical IDs. -/
theorem generateID_matches_amended_spec (p : GoStr) :
    generateID p = generateIDAmendedSpec p := by
  unfold generateID generateIDAmendedSpec
  dsimp only
  have hhash := hashFold_mod (utf8Runes p) 0
  simp only [Nat.zero_mod] at hhash
  rw [hhash]
  set hash := (List.foldl (fun h c => h * 31 + c) 0 (utf8Runes p)) % 4294967296 with hdef
  set base0 := trimSuffix (filepathBase p) (filepathExt p) with bdef
  have h1 : (if base0.length > 8 then base0.take 8 else base0) = base0.take 8 := by
    split
    · rfl
    · exact (List.take_of_length_le (by omega)).symm
  rw [h1]
  have h2 : utf8Encode (65 + hash % 26) = [65 + hash % 26] := by
    have : hash % 26 < 26 := Nat.mod_lt _ (by norm_num)
    unfold utf8Encode
    rw [if_pos (by omega)]
  rw [h2]

theorem addScanPath_already (fs : FS) (lib : Library) (path : GoStr)
    (h : fs.stat path = .dir) (hm : path ∈ lib.ScanPaths) :
    AddScanPath fs lib path = (lib, none) := by
  have hc : lib.ScanPaths.contains path = true := List.elem_eq_true_of_mem hm
  simp only [AddScanPath, h, hc, if_true]

theorem addScanPath_new (fs : FS) (lib : Library) (path : GoStr)
    (h : fs.stat path = .dir) (hm : path ∉ lib.ScanPaths) :
    AddScanPath fs lib path =
      ({ lib with ScanPaths := lib.ScanPaths ++ [path] }, none) := by
  have hc : lib.ScanPaths.contains path = false := by
    cases hc : lib.ScanPaths.contains path
    · rfl
    · exact absurd (List.mem_of_elem_eq_true hc) hm
  simp only [AddScanPath, h, hc, Bool.false_eq_true, if_false]

theorem addNTimes_fixed (fs : FS) (path : GoStr) (h : fs.stat path = .dir) :
    ∀ (n : Nat) (lib : Library), path ∈ lib.ScanPaths → addNTimes fs path n lib = lib := by
  intro n
  induction n with
  | zero => intro lib _; rfl
  | succ k ih =>
    intro lib hm
    show addNTimes fs path k (AddScanPath fs lib path).1 = lib
    rw [addScanPath_already fs lib path h hm]
    exact ih lib hm

/-- C5: `AddScanPath` fails with the stat `PathError` when the path is
missing, fails with the distinct bare `os.ErrNotExist` value when the
path exists but is not a directory, and otherwise appends the path unless
an exact-string-equal entry is present; from a state without the path,
adding it `n + 1` times yields exactly one entry, every call
succeeding. -/
theorem addScanPath_spec (fs : FS) (lib : Library) (path : GoStr) :
    (fs.stat path = .missing →
      AddScanPath fs lib path = (lib, some (.statPathError path))) ∧
    (fs.stat path = .file →
      AddScanPath fs lib path = (lib, some .errNotExist)) ∧
    (GoError.statPathError path ≠ GoError.errNotExist) ∧
    (fs.stat path = .dir → path ∈ lib.ScanPaths →
      AddScanPath fs lib path = (lib, none)) ∧
    (fs.stat path = .dir → path ∉ lib.ScanPaths →
      AddScanPath fs lib path = ({ lib with ScanPaths := lib.ScanPaths ++ [path] }, none)) ∧
    (fs.stat path = .dir → path ∉ lib.ScanPaths → ∀ n : Nat,
      (addNTimes fs path (n + 1) lib).ScanPaths.count path = 1) := by
  refine ⟨fun h => by simp [AddScanPath, h],
          fun h => by simp [AddScanPath, h],
          by simp,
          fun h hm => addScanPath_already fs lib path h hm,
          fun h hm => addScanPath_new fs lib path h hm, ?_⟩
  intro h hm n
  have step1 : addNTimes fs path (n + 1) lib =
      addNTimes fs path n ({ lib with ScanPaths := lib.ScanPaths ++ [path] }) := by
    show addNTimes fs path n (AddScanPath fs lib path).1 = _
    rw [addScanPath_new fs lib path h hm]
  rw [step1, addNTimes_fixed fs path h n _ (by simp)]
  simp [List.count_append, List.count_eq_zero.mpr hm]

/-- C5 witness: concrete filesystem with a directory, a plain file and a
missing path. -/
theorem addScanPath_spec_witness :
    (let fsW : FS :=
      { stat := fun p => if p = str "/roms" then .dir
                         else if p = str "/a.txt" then .file
                         else .missing
        walk := fun _ => [] }
     AddScanPath fsW {} (str "/nope") = ({}, some (.statPathError (str "/nope"))) ∧
     AddScanPath fsW {} (str "/a.txt") = ({}, some .errNotExist) ∧
     (addNTimes fsW (str "/roms") 3 {}).ScanPaths.count (str "/roms") = 1) := by
  refine ⟨(addScanPath_spec _ {} _).1 (by decide),
          ((addScanPath_spec _ {} _).2.1 (by decide)),
          ?_⟩
  exact (addScanPath_spec _ {} _).2.2.2.2.2 (by decide) (by decide) 2

theorem toggleGames_none (id : GoStr) :
    ∀ l : List GameInfo, (∀ g ∈ l, g.ID ≠ id) → toggleGames id l = none := by
  intro l
  induction l with
  | nil => intro _; rfl
  | cons g rest ih =>
    intro h
    have hg : (g.ID == id) = false := by
      cases hc : g.ID == id
      · rfl
      · exact absurd (by simpa using hc) (h g (by simp))
    simp only [toggleGames, hg, Bool.false_eq_true, if_false]
    rw [ih (fun x hx => h x (by simp [hx]))]

/-- C7: `ToggleFavorite` with an ID matching no record succeeds (no
error) and returns the store completely unchanged. -/
theorem toggleFavorite_no_match (lib : Library) (id : GoStr) (saveResult : Option GoError)
    (h : ∀ g ∈ lib.Games, g.ID ≠ id) :
    ToggleFavorite lib id saveResult = (lib, none) := by
  simp [ToggleFavorite, toggleGames_none id lib.Games h]

/-- C7 witness: a store with one record, toggled with a different ID. -/
theorem toggleFavorite_no_match_witness :
    ToggleFavorite { Games := [{ ID := str "MARIOA" }] } (str "NOPE")
        (some (.writeError (str "disk full"))) =
      ({ Games := [{ ID := str "MARIOA" }] }, none) :=
  toggleFavorite_no_match _ _ _ (by decide)

/-- C4 (code bug): the claim — and the spec — describe `Scan` returning
the persistence error after the in-memory replacement.  In the program
`Scan` still holds `lib.mu` when `return lib.Save()` re-acquires it, and
`sync.RWMutex` is not reentrant, so every `Scan` call blocks forever
inside `Save`: the in-memory replacement has indeed already happened and
is never rolled back (the recorded blocking state is exactly the fully
replaced state, independent of the disk-write outcome), but persistence
never runs and no error — and no return at all — ever reaches the
caller. -/
theorem scan_deadlocks_in_save (fs : FS) (now : Int) (writeResult : Option GoError)
    (lib : Library) :
    ScanExec fs now writeResult lib = .blocked (Scan fs now writeResult lib).1 ∧
    (Scan fs now writeResult lib).1 = (Scan fs now none lib).1 :=
  ⟨rfl, rfl⟩

theorem detectPlatform_spec (ext : GoStr) (h : detectPlatform ext ≠ []) :
    ∃ exts, (detectPlatform ext, exts) ∈ platformExtensions ∧ ext ∈ exts := by
  unfold detectPlatform at h ⊢
  cases hf : platformExtensions.find? (fun pe => pe.2.contains ext) with
  | none => rw [hf] at h; exact absurd rfl h
  | some pe =>
    dsimp only
    have hp := List.find?_some hf
    simp only [List.contains] at hp
    exact ⟨pe.2, List.mem_of_find?_eq_some hf, List.mem_of_elem_eq_true hp⟩

theorem scanStep_games (st : Library) (e : WalkEntry) (g : GameInfo)
    (h : g ∈ (scanStep st e).Games) :
    g ∈ st.Games ∨
      (e.err = false ∧ e.isDir = false ∧
       detectPlatform (goToLower (filepathExt e.path)) ≠ [] ∧
       g = mkGame e.path (detectPlatform (goToLower (filepathExt e.path)))) := by
  unfold scanStep at h
  cases herr : e.err with
  | true => rw [herr] at h; exact Or.inl h
  | false =>
    cases hdir : e.isDir with
    | true => rw [herr, hdir] at h; exact Or.inl h
    | false =>
      rw [herr, hdir] at h
      simp only [Bool.or_self, Bool.false_eq_true, if_false] at h
      by_cases hpl : detectPlatform (goToLower (filepathExt e.path)) ≠ []
      · rw [if_pos hpl] at h
        simp only [List.mem_append, List.mem_singleton] at h
        rcases h with h | h
        · exact Or.inl h
        · exact Or.inr ⟨rfl, rfl, hpl, h⟩
      · rw [if_neg hpl] at h
        exact Or.inl h

theorem walkFold_games (es : List WalkEntry) (st : Library) (g : GameInfo)
    (h : g ∈ (es.foldl scanStep st).Games) :
    g ∈ st.Games ∨ ∃ e ∈ es, e.err = false ∧ e.isDir = false ∧
      detectPlatform (goToLower (filepathExt e.path)) ≠ [] ∧
      g = mkGame e.path (detectPlatform (goToLower (filepathExt e.path))) := by
  induction es generalizing st with
  | nil => exact Or.inl h
  | cons e rest ih =>
    rcases ih (scanStep st e) h with h1 | ⟨e2, he2, prop⟩
    · rcases scanStep_games st e g h1 with h2 | prop
      · exact Or.inl h2
      · exact Or.inr ⟨e, by simp, prop⟩
    · exact Or.inr ⟨e2, by simp [he2], prop⟩

theorem rootsFold_games (fs : FS) (roots : List GoStr) (st : Library) (g : GameInfo)
    (h : g ∈ (roots.foldl (fun st root => (fs.walk root).foldl scanStep st) st).Games) :
    g ∈ st.Games ∨ ∃ root ∈ roots, ∃ e ∈ fs.walk root, e.err = false ∧ e.isDir = false ∧
      detectPlatform (goToLower (filepathExt e.path)) ≠ [] ∧
      g = mkGame e.path (detectPlatform (goToLower (filepathExt e.path))) := by
  induction roots generalizing st with
  | nil => exact Or.inl h
  | cons r rest ih =>
    rcases ih ((fs.walk r).foldl scanStep st) h with h1 | ⟨r2, hr2, prop⟩
    · rcases walkFold_games (fs.walk r) st g h1 with h2 | ⟨e, he, prop⟩
      · exact Or.inl h2
      · exact Or.inr ⟨r, by simp, e, he, prop⟩
    · exact Or.inr ⟨r2, by simp [hr2], prop⟩

/-- C2: every record in the store after `Scan` was produced from a
visited regular file whose lower-cased extension is registered for its
assigned platform in the static table (so no record has an unmapped
extension), with `ID = generateID path`, `Title = cleanGameTitle` of the
basename, the matched platform, and category `"Uncategorized"`. -/
theorem scan_records_spec (fs : FS) (now : Int) (saveResult : Option GoError)
    (lib : Library) (g : GameInfo) (hg : g ∈ (Scan fs now saveResult lib).1.Games) :
    ScannedGameOk fs lib.ScanPaths g := by
  unfold Scan at hg
  dsimp only at hg
  rcases rootsFold_games fs lib.ScanPaths _ g hg with h | ⟨root, hroot, e, he, herr, hdir, hpl, hgeq⟩
  · simp at h
  · subst hgeq
    unfold ScannedGameOk mkGame
    dsimp only
    exact ⟨⟨root, hroot, e, he, herr, hdir, rfl⟩, rfl, detectPlatform_spec _ hpl, rfl, rfl, rfl⟩

set_option maxHeartbeats 1000000 in
/-- C2 witness: a concrete one-root filesystem containing a matched ROM
file. -/
theorem scan_records_spec_witness :
    (let fsW : FS :=
      { stat := fun _ => .dir
        walk := fun _ => [⟨str "/r", true, false⟩, ⟨str "/r/mario.nes", false, false⟩,
                          ⟨str "/r/readme.txt", false, false⟩] }
     ScannedGameOk fsW [str "/r"] (mkGame (str "/r/mario.nes") (str "NES"))) :=
  scan_records_spec _ 5 none { ScanPaths := [str "/r"] } _ (by decide)

theorem mapFind_cons (e : GoStr × Int) (rest : CountMap) (k : GoStr) :
    mapFind (e :: rest) k = if e.1 = k then some e.2 else mapFind rest k := by
  simp only [mapFind, List.find?_cons]
  cases hb : (e.1 == k) with
  | true =>
    have h : e.1 = k := by simpa using hb
    simp [h]
  | false =>
    have h : e.1 ≠ k := by simpa using hb
    simp [h]

theorem mapFind_mapSet (m : CountMap) (k : GoStr) (v : Int) (k' : GoStr) :
    mapFind (mapSet m k v) k' = if k' = k then some v else mapFind m k' := by
  induction m with
  | nil =>
    rw [show mapSet [] k v = [(k, v)] from rfl, mapFind_cons]
    by_cases h : k' = k
    · simp [h]
    · have h2 : ¬k = k' := fun hh => h hh.symm
      simp [h, h2, mapFind]
  | cons e rest ih =>
    simp only [mapSet]
    cases hek : (e.1 == k) with
    | true =>
      have he : e.1 = k := by simpa using hek
      simp only [if_true]
      rw [mapFind_cons, mapFind_cons, he]
      by_cases h : k = k'
      · simp [h]
      · have h2 : ¬k' = k := fun hh => h hh.symm
        simp [h, h2]
    | false =>
      have he : e.1 ≠ k := by simpa using hek
      simp only [Bool.false_eq_true, if_false]
      rw [mapFind_cons, ih, mapFind_cons]
      by_cases h1 : e.1 = k'
      · have h2 : ¬k' = k := fun hh => he (h1.trans hh)
        simp [h1, h2]
      · simp [h1]

theorem countsConsistent_nil (f : GameInfo → GoStr) : CountsConsistent [] [] f := by
  intro k
  rfl

theorem countsConsistent_append (games : List GameInfo) (m : CountMap)
    (f : GameInfo → GoStr) (g : GameInfo) (h : CountsConsistent games m f) :
    CountsConsistent (games ++ [g]) (mapInc m (f g)) f := by
  intro k
  have hcnt : (games ++ [g]).countP (fun x => f x == k) =
      games.countP (fun x => f x == k) + (if (f g == k) = true then 1 else 0) := by
    rw [List.countP_append, List.countP_cons]
    simp
  rw [mapInc, mapFind_mapSet, hcnt]
  by_cases hk : k = f g
  · subst hk
    rw [if_pos rfl]
    have hself : (f g == f g) = true := beq_self_eq_true _
    rw [hself, if_pos rfl]
    have hget : mapGet m (f g) = (games.countP (fun x => f x == f g) : Int) := by
      unfold mapGet
      rw [h (f g)]
      by_cases hc : 0 < games.countP (fun x => f x == f g)
      · rw [if_pos hc]; rfl
      · rw [if_neg hc]
        have h0 : games.countP (fun x => f x == f g) = 0 := Nat.eq_zero_of_not_pos hc
        simp [h0]
    rw [hget, if_pos (Nat.succ_pos _)]
    norm_cast
  · rw [if_neg hk]
    have hne : (f g == k) = false := by
      rw [beq_eq_false_iff_ne]
      exact fun hh => hk hh.symm
    rw [hne]
    simp only [Bool.false_eq_true, if_false, Nat.add_zero]
    exact h k

theorem scanStep_preserves (st : Library) (e : WalkEntry)
    (hP : CountsConsistent st.Games st.Platforms (fun g => g.Platform))
    (hC : CountsConsistent st.Games st.Categories (fun g => g.Category)) :
    CountsConsistent (scanStep st e).Games (scanStep st e).Platforms (fun g => g.Platform) ∧
    CountsConsistent (scanStep st e).Games (scanStep st e).Categories (fun g => g.Category) := by
  unfold scanStep
  by_cases h1 : (e.err || e.isDir) = true
  · rw [if_pos h1]
    exact ⟨hP, hC⟩
  · rw [if_neg h1]
    dsimp only
    by_cases h2 : detectPlatform (goToLower (filepathExt e.path)) ≠ []
    · rw [if_pos h2]
      exact ⟨countsConsistent_append st.Games st.Platforms (fun g => g.Platform) _ hP,
             countsConsistent_append st.Games st.Categories (fun g => g.Category) _ hC⟩
    · rw [if_neg h2]
      exact ⟨hP, hC⟩

theorem walkFold_counts (es : List WalkEntry) (st : Library)
    (hP : CountsConsistent st.Games st.Platforms (fun g => g.Platform))
    (hC : CountsConsistent st.Games st.Categories (fun g => g.Category)) :
    CountsConsistent (es.foldl scanStep st).Games
      (es.foldl scanStep st).Platforms (fun g => g.Platform) ∧
    CountsConsistent (es.foldl scanStep st).Games
      (es.foldl scanStep st).Categories (fun g => g.Category) := by
  induction es generalizing st with
  | nil => exact ⟨hP, hC⟩
  | cons e rest ih =>
    have h := scanStep_preserves st e hP hC
    exact ih (scanStep st e) h.1 h.2

theorem rootsFold_counts (fs : FS) (roots : List GoStr) (st : Library)
    (hP : CountsConsistent st.Games st.Platforms (fun g => g.Platform))
    (hC : CountsConsistent st.Games st.Categories (fun g => g.Category)) :
    CountsConsistent (roots.foldl (fun st root => (fs.walk root).foldl scanStep st) st).Games
      (roots.foldl (fun st root => (fs.walk root).foldl scanStep st) st).Platforms
      (fun g => g.Platform) ∧
    CountsConsistent (roots.foldl (fun st root => (fs.walk root).foldl scanStep st) st).Games
      (roots.foldl (fun st root => (fs.walk root).foldl scanStep st) st).Categories
      (fun g => g.Category) := by
  induction roots generalizing st with
  | nil => exact ⟨hP, hC⟩
  | cons r rest ih =>
    have h := walkFold_counts (fs.walk r) st hP hC
    exact ih ((fs.walk r).foldl scanStep st) h.1 h.2

theorem toggleGames_countP (id : GoStr) (p : GameInfo → Bool)
    (hp : ∀ (g : GameInfo) (b : Bool), p { g with Favorite := b } = p g) :
    ∀ (l l2 : List GameInfo), toggleGames id l = some l2 → l2.countP p = l.countP p := by
  intro l
  induction l with
  | nil =>
    intro l2 h
    simp [toggleGames] at h
  | cons g rest ih =>
    intro l2 h
    unfold toggleGames at h
    cases hg : (g.ID == id) with
    | true =>
      rw [if_pos hg] at h
      cases h
      rw [List.countP_cons, List.countP_cons, hp]
    | false =>
      rw [if_neg (by simp [hg])] at h
      cases hrec : toggleGames id rest with
      | none =>
        simp only [hrec] at h
        exact Option.noConfusion h
      | some rest2 =>
        simp only [hrec] at h
        cases h
        rw [List.countP_cons, List.countP_cons, ih rest2 hrec]

theorem toggleFavorite_counts (lib : Library) (id : GoStr) (saveResult : Option GoError) :
    (ToggleFavorite lib id saveResult).1.Platforms = lib.Platforms ∧
    (ToggleFavorite lib id saveResult).1.Categories = lib.Categories ∧
    (∀ k, (ToggleFavorite lib id saveResult).1.Games.countP (fun g => g.Platform == k) =
      lib.Games.countP (fun g => g.Platform == k)) ∧
    (∀ k, (ToggleFavorite lib id saveResult).1.Games.countP (fun g => g.Category == k) =
      lib.Games.countP (fun g => g.Category == k)) := by
  unfold ToggleFavorite
  cases ht : toggleGames id lib.Games with
  | none => exact ⟨rfl, rfl, fun k => rfl, fun k => rfl⟩
  | some l2 =>
    dsimp only
    exact ⟨rfl, rfl,
           fun k => toggleGames_countP id (fun g => g.Platform == k)
             (fun g b => rfl) lib.Games l2 ht,
           fun k => toggleGames_countP id (fun g => g.Category == k)
             (fun g b => rfl) lib.Games l2 ht⟩

/-- C10: after every `Scan`, each platform's entry in the `Platforms` map
equals the number of records with that platform (with no entry when the
count is zero), and likewise for `Categories`; `ToggleFavorite` preserves
this consistency (the getters take the store by value and return only
record lists, leaving the state untouched by construction). -/
theorem count_maps_consistent :
    (∀ (fs : FS) (now : Int) (saveResult : Option GoError) (lib : Library),
      CountsConsistent (Scan fs now saveResult lib).1.Games
        (Scan fs now saveResult lib).1.Platforms (fun g => g.Platform) ∧
      CountsConsistent (Scan fs now saveResult lib).1.Games
        (Scan fs now saveResult lib).1.Categories (fun g => g.Category)) ∧
    (∀ (lib : Library) (id : GoStr) (saveResult : Option GoError),
      (CountsConsistent lib.Games lib.Platforms (fun g => g.Platform) →
        CountsConsistent (ToggleFavorite lib id saveResult).1.Games
          (ToggleFavorite lib id saveResult).1.Platforms (fun g => g.Platform)) ∧
      (CountsConsistent lib.Games lib.Categories (fun g => g.Category) →
        CountsConsistent (ToggleFavorite lib id saveResult).1.Games
          (ToggleFavorite lib id saveResult).1.Categories (fun g => g.Category))) := by
  constructor
  · intro fs now saveResult lib
    unfold Scan
    dsimp only
    exact rootsFold_counts fs lib.ScanPaths _
      (countsConsistent_nil (fun g => g.Platform))
      (countsConsistent_nil (fun g => g.Category))
  · intro lib id saveResult
    obtain ⟨hPl, hCat, hcp, hcc⟩ := toggleFavorite_counts lib id saveResult
    constructor
    · intro h k
      rw [hPl, hcp k]
      exact h k
    · intro h k
      rw [hCat, hcc k]
      exact h k

/-- C10 witness: toggling on an empty (hence trivially consistent) store
preserves consistency. -/
theorem count_maps_consistent_witness :
    CountsConsistent (ToggleFavorite {} (str "X") none).1.Games
      (ToggleFavorite {} (str "X") none).1.Platforms (fun g => g.Platform) ∧
    CountsConsistent (ToggleFavorite {} (str "X") none).1.Games
      (ToggleFavorite {} (str "X") none).1.Categories (fun g => g.Category) :=
  ⟨(count_maps_consistent.2 {} (str "X") none).1 (fun _ => rfl),
   (count_maps_consistent.2 {} (str "X") none).2 (fun _ => rfl)⟩

theorem decodeGame_encodeGame (g : GameInfo) : decodeGame (encodeGame g) = some g := rfl

theorem mapM_decodeGame (l : List GameInfo) :
    (l.map encodeGame).mapM decodeGame = some l := by
  induction l with
  | nil => rfl
  | cons g rest ih =>
    rw [List.map_cons, List.mapM_cons, decodeGame_encodeGame, ih]
    rfl

theorem mapM_asStr (l : List GoStr) : (l.map Json.str).mapM asStr = some l := by
  induction l with
  | nil => rfl
  | cons s rest ih =>
    rw [List.map_cons, List.mapM_cons, show asStr (Json.str s) = some s from rfl, ih]
    rfl

theorem mapM_numEntries (es : CountMap) :
    (es.map (fun e => (e.1, Json.num e.2))).mapM
        (fun e => (asNum e.2).map (fun v => (e.1, v))) = some es := by
  induction es with
  | nil => rfl
  | cons e rest ih =>
    rw [List.map_cons, List.mapM_cons, ih]
    rfl

theorem mem_insertSorted (x y : GoStr × Int) (l : List (GoStr × Int)) :
    x ∈ insertSorted y l ↔ x = y ∨ x ∈ l := by
  induction l with
  | nil => simp [insertSorted]
  | cons z rest ih =>
    unfold insertSorted
    by_cases h : lexLe y.1 z.1
    · simp [h]
    · simp only [h, Bool.false_eq_true, if_false, List.mem_cons, ih]
      tauto

theorem mem_sortByKey (x : GoStr × Int) (m : CountMap) :
    x ∈ sortByKey m ↔ x ∈ m := by
  unfold sortByKey
  induction m with
  | nil => simp
  | cons e rest ih =>
    rw [List.foldr_cons, mem_insertSorted]
    simp [ih]

theorem mapFind_of_mem_nodup (m : CountMap) (k : GoStr) (v : Int)
    (hnd : (m.map Prod.fst).Nodup) (hm : (k, v) ∈ m) : mapFind m k = some v := by
  induction m with
  | nil => simp at hm
  | cons e rest ih =>
    rw [mapFind_cons]
    rw [List.map_cons, List.nodup_cons] at hnd
    rcases List.mem_cons.mp hm with heq | hmem
    · obtain ⟨rfl, rfl⟩ : e.1 = k ∧ e.2 = v := by
        rw [← heq]
        exact ⟨rfl, rfl⟩
      rw [if_pos rfl]
    · have hne : e.1 ≠ k := by
        intro hcontra
        exact hnd.1 (hcontra ▸ (List.mem_map.mpr ⟨(k, v), hmem, rfl⟩))
      rw [if_neg hne]
      exact ih hnd.2 hmem

theorem mapSet_self (m : CountMap) (k : GoStr) (v : Int)
    (h : mapFind m k = some v) : mapSet m k v = m := by
  induction m with
  | nil => exact Option.noConfusion h
  | cons e rest ih =>
    rw [mapFind_cons] at h
    unfold mapSet
    by_cases he : e.1 = k
    · rw [if_pos he] at h
      cases h
      rw [if_pos (by simpa using he), ← he]
    · rw [if_neg he] at h
      rw [if_neg (by simpa using he), ih h]

theorem foldl_mapSet_id (m : CountMap) (es : List (GoStr × Int))
    (h : ∀ e ∈ es, mapFind m e.1 = some e.2) :
    es.foldl (fun acc e => mapSet acc e.1 e.2) m = m := by
  induction es with
  | nil => rfl
  | cons e rest ih =>
    rw [List.foldl_cons]
    rw [show mapSet m e.1 e.2 = m from mapSet_self m e.1 e.2 (h e (by simp))]
    exact ih (fun x hx => h x (by simp [hx]))

theorem decodeCountMapInto_encode (m : CountMap) (hnd : (m.map Prod.fst).Nodup) :
    decodeCountMapInto m (encodeCountMap m) = some m := by
  have hstep : decodeCountMapInto m (encodeCountMap m) =
      (((sortByKey m).map (fun e => (e.1, Json.num e.2))).mapM
          (fun e => (asNum e.2).map (fun v => (e.1, v)))).bind
        (fun entries => some (entries.foldl (fun acc e => mapSet acc e.1 e.2) m)) := rfl
  rw [hstep, mapM_numEntries]
  show some ((sortByKey m).foldl (fun acc e => mapSet acc e.1 e.2) m) = some m
  rw [foldl_mapSet_id]
  intro e he
  exact mapFind_of_mem_nodup m e.1 e.2 hnd ((mem_sortByKey e m).mp he)

/-- C3: saving a store and loading the saved snapshot back reproduces a
semantically equal store: the same record sequence with all fields, the
same scan paths, the same category and platform count maps, and the same
last-scan timestamp (the map keys of a reachable store are unique, which
the hypotheses record). -/
theorem save_load_roundtrip (lib : Library)
    (hc : (lib.Categories.map Prod.fst).Nodup)
    (hp : (lib.Platforms.map Prod.fst).Nodup) :
    Load lib (some (saveContent lib)) = some lib := by
  have hstep : Load lib (some (saveContent lib)) =
      ((lib.Games.map encodeGame).mapM decodeGame).bind (fun games =>
      ((lib.ScanPaths.map Json.str).mapM asStr).bind (fun paths =>
      (decodeCountMapInto lib.Categories (encodeCountMap lib.Categories)).bind (fun cats =>
      (decodeCountMapInto lib.Platforms (encodeCountMap lib.Platforms)).bind (fun plats =>
      some { Games := games, ScanPaths := paths, Categories := cats, Platforms := plats,
             LastScan := lib.LastScan })))) := rfl
  rw [hstep, mapM_decodeGame, mapM_asStr, decodeCountMapInto_encode lib.Categories hc,
      decodeCountMapInto_encode lib.Platforms hp]
  rfl

/-- C3 witness: a concrete populated store. -/
theorem save_load_roundtrip_witness :
    Load { Games := [{ ID := str "MARIOA", Title := str "mario", Platform := str "NES",
                       Path := str "/r/mario.nes", LastPlayed := 3, PlayCount := 2,
                       Favorite := true, Category := str "Uncategorized" }],
           ScanPaths := [str "/r"],
           Categories := [(str "Uncategorized", 1)],
           Platforms := [(str "NES", 1)],
           LastScan := 9 }
        (some (saveContent
          { Games := [{ ID := str "MARIOA", Title := str "mario", Platform := str "NES",
                        Path := str "/r/mario.nes", LastPlayed := 3, PlayCount := 2,
                        Favorite := true, Category := str "Uncategorized" }],
            ScanPaths := [str "/r"],
            Categories := [(str "Uncategorized", 1)],
            Platforms := [(str "NES", 1)],
            LastScan := 9 })) =
      some { Games := [{ ID := str "MARIOA", Title := str "mario", Platform := str "NES",
                         Path := str "/r/mario.nes", LastPlayed := 3, PlayCount := 2,
                         Favorite := true, Category := str "Uncategorized" }],
             ScanPaths := [str "/r"],
             Categories := [(str "Uncategorized", 1)],
             Platforms := [(str "NES", 1)],
             LastScan := 9 } :=
  save_load_roundtrip _ (by decide) (by decide)

theorem bubblePassAux_perm (t : List GameInfo) :
    ∀ a, (bubblePassAux a t).Perm (a :: t) := by
  induction t with
  | nil => intro a; exact List.Perm.refl [a]
  | cons b t ih =>
    intro a
    unfold bubblePassAux
    by_cases h : a.LastPlayed < b.LastPlayed
    · rw [if_pos h]
      exact ((ih a).cons b).trans (List.Perm.swap a b t)
    · rw [if_neg h]
      exact (ih b).cons a

theorem bubblePassAux_split (t : List GameInfo) :
    ∀ a, ∃ p mn, bubblePassAux a t = p ++ [mn] ∧
      ∀ x ∈ a :: t, mn.LastPlayed ≤ x.LastPlayed := by
  induction t with
  | nil =>
    intro a
    refine ⟨[], a, rfl, ?_⟩
    intro x hx
    rcases List.mem_singleton.mp hx with rfl
    exact le_refl _
  | cons b t ih =>
    intro a
    unfold bubblePassAux
    by_cases h : a.LastPlayed < b.LastPlayed
    · rw [if_pos h]
      obtain ⟨p, mn, heq, hmin⟩ := ih a
      refine ⟨b :: p, mn, by rw [heq]; rfl, ?_⟩
      intro x hx
      rcases List.mem_cons.mp hx with rfl | hx2
      · exact hmin x (by simp)
      rcases List.mem_cons.mp hx2 with rfl | hx3
      · exact le_trans (hmin a (by simp)) (le_of_lt h)
      · exact hmin x (by simp [hx3])
    · rw [if_neg h]
      obtain ⟨p, mn, heq, hmin⟩ := ih b
      refine ⟨a :: p, mn, by rw [heq]; rfl, ?_⟩
      intro x hx
      rcases List.mem_cons.mp hx with rfl | hx2
      · exact le_trans (hmin b (by simp)) (not_lt.mp h)
      · exact hmin x hx2

theorem bubblePass_perm (l : List GameInfo) : (bubblePass l).Perm l := by
  cases l with
  | nil => exact List.Perm.refl []
  | cons a t => exact bubblePassAux_perm t a

theorem bubblePass_split (l : List GameInfo) (h : l ≠ []) :
    ∃ p mn, bubblePass l = p ++ [mn] ∧ ∀ x ∈ l, mn.LastPlayed ≤ x.LastPlayed := by
  cases l with
  | nil => exact absurd rfl h
  | cons a t => exact bubblePassAux_split t a

theorem bubbleAux_sorted :
    ∀ (m : Nat) (l : List GameInfo), m ≤ l.length →
      SortedDesc (l.drop m) →
      (∀ x ∈ l.take m, ∀ y ∈ l.drop m, y.LastPlayed ≤ x.LastPlayed) →
      SortedDesc (bubbleAux m l) ∧ (bubbleAux m l).Perm l := by
  intro m
  induction m using Nat.strong_induction_on with
  | _ m ih =>
    match m with
    | 0 =>
      intro l _ hs _
      exact ⟨by simpa using hs, List.Perm.refl l⟩
    | 1 =>
      intro l _ hs hmin
      refine ⟨?_, List.Perm.refl l⟩
      cases l with
      | nil => exact List.sorted_nil
      | cons a t =>
        refine List.sorted_cons.mpr ⟨?_, by simpa using hs⟩
        intro b hb
        exact hmin a (by simp) b (by simpa using hb)
    | m + 2 =>
      intro l hlen hs hmin
      have htl : (l.take (m + 2)).length = m + 2 := by
        rw [List.length_take]
        omega
      obtain ⟨p, mn, heq, hmnle⟩ :=
        bubblePass_split (l.take (m + 2)) (by
          intro hnil
          rw [hnil] at htl
          simp at htl)
      have hpt : (bubblePass (l.take (m + 2))).Perm (l.take (m + 2)) :=
        bubblePass_perm _
      have hmem : ∀ x ∈ p ++ [mn], x ∈ l.take (m + 2) := fun x hx =>
        hpt.mem_iff.mp (heq ▸ hx)
      have hpl : p.length = m + 1 := by
        have := hpt.length_eq
        rw [heq] at this
        simp only [List.length_append, List.length_singleton] at this
        omega
      have hl2 : passFirst (m + 2) l = p ++ (mn :: l.drop (m + 2)) := by
        unfold passFirst
        rw [heq, List.append_assoc, List.singleton_append]
      set l2 := p ++ (mn :: l.drop (m + 2)) with hl2def
      have hl2len : l2.length = l.length := by
        rw [hl2def, List.length_append, List.length_cons, List.length_drop, hpl]
        omega
      have htake2 : l2.take (m + 1) = p := by
        rw [hl2def, ← hpl]
        exact List.take_left p _
      have hdrop2 : l2.drop (m + 1) = mn :: l.drop (m + 2) := by
        rw [hl2def, ← hpl]
        exact List.drop_left p _
      have hs2 : SortedDesc (l2.drop (m + 1)) := by
        rw [hdrop2]
        refine List.sorted_cons.mpr ⟨?_, hs⟩
        intro y hy
        exact hmin mn (hmem mn (by simp)) y hy
      have hmin2 : ∀ x ∈ l2.take (m + 1), ∀ y ∈ l2.drop (m + 1),
          y.LastPlayed ≤ x.LastPlayed := by
        rw [htake2, hdrop2]
        intro x hx y hy
        have hxt : x ∈ l.take (m + 2) := hmem x (by simp [hx])
        rcases List.mem_cons.mp hy with rfl | hy2
        · exact hmnle x hxt
        · exact hmin x hxt y hy2
      have hstep : bubbleAux (m + 2) l = bubbleAux (m + 1) l2 := by
        rw [show bubbleAux (m + 2) l = bubbleAux (m + 1) (passFirst (m + 2) l) from rfl, hl2]
      obtain ⟨hres, hresperm⟩ :=
        ih (m + 1) (by omega) l2 (by omega) hs2 hmin2
      refine ⟨hstep ▸ hres, ?_⟩
      rw [hstep]
      have hchain : l2 = bubblePass (l.take (m + 2)) ++ l.drop (m + 2) := by
        rw [hl2def, heq, List.append_assoc, List.singleton_append]
      have hp2 : (bubblePass (l.take (m + 2)) ++ l.drop (m + 2)).Perm
          (l.take (m + 2) ++ l.drop (m + 2)) := hpt.append_right _
      have : l2.Perm l := by
        rw [hchain]
        exact hp2.trans (by rw [List.take_append_drop])
      exact hresperm.trans this

theorem bubbleSort_spec (l : List GameInfo) :
    SortedDesc (bubbleSort l) ∧ (bubbleSort l).Perm l := by
  refine bubbleAux_sorted l.length l le_rfl ?_ ?_
  · rw [List.drop_length]
    exact List.sorted_nil
  · intro x _ y hy
    rw [List.drop_length] at hy
    exact absurd hy (List.not_mem_nil y)

/-- C6: `GetRecentlyPlayed` returns a copy of the record sequence sorted
by `LastPlayed` descending; with `limit > 0` it returns
`min limit total` records (the first `limit` of the sorted sequence when
`limit < total`, otherwise all of them), and with `limit ≤ 0` it returns
the whole sorted sequence.  The store itself is untouched (the function
sorts a copy and returns only the list). -/
theorem getRecentlyPlayed_spec (lib : Library) (limit : Int) :
    ∃ s : List GameInfo, s.Perm lib.Games ∧ SortedDesc s ∧
      GetRecentlyPlayed lib limit =
        (if 0 < limit ∧ limit < (lib.Games.length : Int) then s.take limit.toNat else s) ∧
      (0 < limit → (GetRecentlyPlayed lib limit).length = min limit.toNat lib.Games.length) ∧
      (limit ≤ 0 → GetRecentlyPlayed lib limit = s) := by
  obtain ⟨hsort, hperm⟩ := bubbleSort_spec lib.Games
  have hlen : (bubbleSort lib.Games).length = lib.Games.length := hperm.length_eq
  refine ⟨bubbleSort lib.Games, hperm, hsort, ?_, ?_, ?_⟩
  · unfold GetRecentlyPlayed
    dsimp only
    rw [hlen]
  · intro hpos
    unfold GetRecentlyPlayed
    dsimp only
    by_cases hlt : limit < ((bubbleSort lib.Games).length : Int)
    · rw [if_pos ⟨hpos, hlt⟩, List.length_take, hlen]
    · rw [if_neg (fun hc => hlt hc.2), hlen]
      rw [hlen] at hlt
      omega
  · intro hle
    unfold GetRecentlyPlayed
    dsimp only
    rw [if_neg (fun hc => absurd hc.1 (not_lt.mpr hle))]

/-- C6 witness: a concrete four-record store with `limit = 2`. -/
theorem getRecentlyPlayed_spec_witness :
    ∃ s : List GameInfo,
      s.Perm ({ Games := [{ LastPlayed := 1 }, { LastPlayed := 5 }, { LastPlayed := 3 },
                          { LastPlayed := 2 }] } : Library).Games ∧
      SortedDesc s ∧
      GetRecentlyPlayed { Games := [{ LastPlayed := 1 }, { LastPlayed := 5 },
                                    { LastPlayed := 3 }, { LastPlayed := 2 }] } 2 =
        (if 0 < (2 : Int) ∧ (2 : Int) <
            (({ Games := [{ LastPlayed := 1 }, { LastPlayed := 5 }, { LastPlayed := 3 },
                          { LastPlayed := 2 }] } : Library).Games.length : Int) then
          s.take (2 : Int).toNat
        else s) ∧
      (0 < (2 : Int) →
        (GetRecentlyPlayed { Games := [{ LastPlayed := 1 }, { LastPlayed := 5 },
                                       { LastPlayed := 3 }, { LastPlayed := 2 }] } 2).length =
          min (2 : Int).toNat
            ({ Games := [{ LastPlayed := 1 }, { LastPlayed := 5 }, { LastPlayed := 3 },
                         { LastPlayed := 2 }] } : Library).Games.length) ∧
      ((2 : Int) ≤ 0 →
        GetRecentlyPlayed { Games := [{ LastPlayed := 1 }, { LastPlayed := 5 },
                                      { LastPlayed := 3 }, { LastPlayed := 2 }] } 2 = s) :=
  getRecentlyPlayed_spec
    { Games := [{ LastPlayed := 1 }, { LastPlayed := 5 }, { LastPlayed := 3 },
                { LastPlayed := 2 }] } 2

/-- C8: a `get_game` request whose payload decodes to an ID string
matching no record yields `type = "error"`, the request's id,
`success = false` and error exactly `"Game not found"`; with a matching
record it yields `type = "success"`, `success = true` and the record as
data.  Neither branch touches the store. -/
theorem getGame_response (fs : FS) (now : Int) (saveResult : Option GoError)
    (lib : Library) (req : Request) (id : GoStr)
    (ht : req.Typ = str "get_game") (hp : req.Payload = some (Json.str id)) :
    (GetGameByID lib id = none →
      handleRequest fs now saveResult lib req =
        ({ Typ := str "error", ID := req.ID, Success := false, Data := .nothing,
           Error := str "Game not found" }, lib)) ∧
    (∀ g, GetGameByID lib id = some g →
      handleRequest fs now saveResult lib req =
        ({ Typ := str "success", ID := req.ID, Success := true, Data := .game g,
           Error := [] }, lib)) := by
  unfold handleRequest
  rw [ht, hp]
  rw [show (str "get_game" == str "list_games") = false from by decide]
  rw [show (str "get_game" == str "get_game") = true from by decide]
  simp only [Bool.false_eq_true, if_false, if_true]
  constructor
  · intro hnone
    rw [show payloadString (some (Json.str id)) = id from rfl, hnone]
  · intro g hg
    rw [show payloadString (some (Json.str id)) = id from rfl, hg]

/-- C8 witness: a one-record store queried for a missing and for a
present ID. -/
theorem getGame_response_witness :
    (handleRequest ⟨fun _ => .missing, fun _ => []⟩ 0 none
        { Games := [{ ID := str "MARIOA" }] }
        { Typ := str "get_game", ID := str "r1", Payload := some (.str (str "NOPE")) } =
      ({ Typ := str "error", ID := str "r1", Success := false, Data := .nothing,
         Error := str "Game not found" }, { Games := [{ ID := str "MARIOA" }] })) ∧
    (handleRequest ⟨fun _ => .missing, fun _ => []⟩ 0 none
        { Games := [{ ID := str "MARIOA" }] }
        { Typ := str "get_game", ID := str "r2", Payload := some (.str (str "MARIOA")) } =
      ({ Typ := str "success", ID := str "r2", Success := true,
         Data := .game { ID := str "MARIOA" }, Error := [] },
       { Games := [{ ID := str "MARIOA" }] })) :=
  ⟨(getGame_response ⟨fun _ => .missing, fun _ => []⟩ 0 none
      { Games := [{ ID := str "MARIOA" }] }
      { Typ := str "get_game", ID := str "r1", Payload := some (.str (str "NOPE")) }
      (str "NOPE") rfl rfl).1 (by decide),
   (getGame_response ⟨fun _ => .missing, fun _ => []⟩ 0 none
      { Games := [{ ID := str "MARIOA" }] }
      { Typ := str "get_game", ID := str "r2", Payload := some (.str (str "MARIOA")) }
      (str "MARIOA") rfl rfl).2 { ID := str "MARIOA" } (by decide)⟩

/-- C9: viewed as a function from received lines to emitted responses,
the loop emits nothing for a blank line, exactly one `type = "error"`
response with an empty id for an unparsable line (and continues), and
exactly one handler response per parsed line; in particular a malformed
line followed by a valid `status` line yields the error response and
then the normal status response. -/
theorem handleClient_lines (handler : Option (Request → Response))
    (lines : List ClientLine) :
    processLines handler lines = lines.flatMap (fun l =>
      match l with
      | .blank => []
      | .malformed m => [sendErrorResp [] (str "Invalid JSON: " ++ m)]
      | .parsed req => [(match handler with
                         | some h => h req
                         | none => defaultHandler req)]) ∧
    (∀ (fs : FS) (now : Int) (saveResult : Option GoError) (lib : Library) (m rid : GoStr),
      processLines (some (fun req => (handleRequest fs now saveResult lib req).1))
          [.malformed m, .parsed { Typ := str "status", ID := rid }] =
        [sendErrorResp [] (str "Invalid JSON: " ++ m),
         { Typ := str "status", ID := rid, Success := true,
           Data := .kv [(str "status", str "ready"), (str "version", str "1.0.0")],
           Error := [] }]) := by
  constructor
  · induction lines with
    | nil => rfl
    | cons l rest ih =>
      cases l with
      | blank => simpa [processLines] using ih
      | malformed m => simpa [processLines] using ih
      | parsed req => simpa [processLines] using ih
  · intro fs now saveResult lib m rid
    rfl

end GameLib

